import Mathlib

/-!
Verification development for the avail-light-bootstrap peer-discovery node.

The definitions below are a shallow embedding of the repository's core:
the network engine event loop (`src/network/event_loop.rs`), the client
handle (`src/network/client.rs`) and the configuration/identity helpers
(`src/types.rs`).  Peer identifiers, query identifiers and one-shot
channels are modelled as natural numbers; multiaddresses and protocol /
agent version strings are modelled as lists of characters (the textual
form the source manipulates); the Kademlia behaviour owned by the swarm
is modelled by the observable state the engine reads and writes through
it: the routing table (an association list from peer id to its known
addresses) and a counter supplying the fresh query ids that
`Kademlia::bootstrap` returns.
-/

abbrev PeerId := Nat
abbrev QueryId := Nat
abbrev Chan := Nat
abbrev Multiaddr := List Char

/-- Association-list lookup keyed by `Nat`, used to model the engine's
`HashMap` fields (`pending_kad_queries`, `pending_kad_routing`,
`pending_swarm_events`) and the Kademlia routing table. -/
def lookupA {α : Type} (k : Nat) : List (Nat × α) → Option α
  | [] => none
  | e :: t => if e.1 = k then some e.2 else lookupA k t

/-- Removal of every entry with key `k`; on association lists whose keys
are `Nodup` (an invariant of the engine, which only inserts through
`insertA`) this is exactly `HashMap::remove`. -/
def removeA {α : Type} (k : Nat) : List (Nat × α) → List (Nat × α)
  | [] => []
  | e :: t => if e.1 = k then removeA k t else e :: removeA k t

/-- `HashMap::insert`: the new binding replaces any existing binding for
the same key (the replaced value is dropped by the caller). -/
def insertA {α : Type} (k : Nat) (v : α) (l : List (Nat × α)) : List (Nat × α) :=
  (k, v) :: removeA k l

/-- Keys of an association list. -/
abbrev keysA {α : Type} (l : List (Nat × α)) : List Nat := l.map (·.1)

/-- Values (channels) of an association list. -/
abbrev chansA (l : List (Nat × Chan)) : List Chan := l.map (·.2)

/-- Does `needle` occur at the start of `hay`? Models `str::starts_with`. -/
def startsWithL : List Char → List Char → Bool
  | [], _ => true
  | _ :: _, [] => false
  | c :: cs, d :: ds => c = d && startsWithL cs ds

/-- Does `needle` occur anywhere inside `hay`? Models `str::contains`
as used on `a.to_string()` in the identify handler. -/
def containsSub (needle : List Char) : List Char → Bool
  | [] => startsWithL needle []
  | d :: ds => startsWithL needle (d :: ds) || containsSub needle ds

/-- The multiaddr protocol tag of `Protocol::P2p(peer_id)`: `tag()`
returns the protocol's name, the constant string "p2p" (it does not
contain the peer id). -/
def tagP2p : List Char := ['p', '2', 'p']

/-- Observable state of the Kademlia behaviour: the routing table and
the counter producing the fresh `QueryId` that `bootstrap()` returns. -/
structure Kademlia where
  table : List (PeerId × List Multiaddr)
  nextQueryId : Nat
deriving DecidableEq

/-- `Kademlia::add_address(&peer, addr)`: record `addr` as an address of
`peer`, creating the routing-table entry if the peer is new. -/
def kadAddAddress (k : Kademlia) (p : PeerId) (a : Multiaddr) : Kademlia :=
  match lookupA p k.table with
  | some _ =>
    { k with table := k.table.map (fun e => if e.1 = p then (e.1, e.2 ++ [a]) else e) }
  | none => { k with table := k.table ++ [(p, [a])] }

/-- `Kademlia::remove_peer(&peer)`: evict the peer from the routing table. -/
def kadRemovePeer (k : Kademlia) (p : PeerId) : Kademlia :=
  { k with table := removeA p k.table }

/-- `Kademlia::bootstrap()`: with an empty routing table it returns the
`NoKnownPeers` error (`none`); otherwise it starts a bootstrap query and
returns its fresh `QueryId`. -/
def kadBootstrap (k : Kademlia) : Option QueryId × Kademlia :=
  if k.table.isEmpty then (none, k)
  else (some k.nextQueryId, { k with nextQueryId := k.nextQueryId + 1 })

/-- One terminal action on a one-shot response channel.  `sendOk`,
`sendErr`, `sendUnit` and `sendVal` are explicit `send` calls in the
source; `dropped` records a sender being dropped without a send (map
overwrite or engine shutdown), which in tokio completes the receiver's
await with a channel-closed error. -/
inductive Completion
  | sendOk (c : Chan)
  | sendErr (c : Chan)
  | sendUnit (c : Chan)
  | sendVal (c : Chan)
  | dropped (c : Chan)
deriving DecidableEq

/-- The channel a completion acts on. -/
def Completion.chan : Completion → Chan
  | sendOk c => c
  | sendErr c => c
  | sendUnit c => c
  | sendVal c => c
  | dropped c => c

/-- Channels of a list of completions. -/
abbrev compChans (l : List Completion) : List Chan := l.map Completion.chan

/-- The cause carried by `SwarmEvent::ConnectionClosed`; the source
distinguishes `ConnectionError::IO`, `ConnectionError::Handler` and the
remaining keep-alive-timeout variant (its wildcard arm). -/
inductive ConnectionError
  | ioError
  | handlerError
  | keepAliveTimeout
deriving DecidableEq

/-- The swarm events the engine's `handle_event` dispatches on,
restricted to the data the handlers actually consume.  `identifyReceived`
carries the sender's protocol-version string because the real
`identify::Info` does, even though the engine's handler ignores it. -/
inductive Event
  | routingUpdated (peer : PeerId)
  | bootstrapOk (id : QueryId) (peer : PeerId) (numRemaining : Nat)
  | bootstrapErr (id : QueryId)
  | otherQueryProgressed (id : QueryId)
  | identifyReceived (peer : PeerId) (protocolVersion : List Char) (listenAddrs : List Multiaddr)
  | autoNatEvent
  | connectionClosed (peer : PeerId) (cause : Option ConnectionError)
  | outgoingConnectionError (peer : Option PeerId)
  | connectionEstablished (isListener : Bool)
  | newListenAddr
deriving DecidableEq

/-- The command enum sent from the client handle to the engine.
`startListening` carries the boolean outcome of `Swarm::listen_on` as an
input of the model.  `getDHTEntries` and `addAddress` are modelled from
the spec: the client enum declares `GetDHTEntries` and the spec's
command table (§4.4) gives both handlers, but the engine file in src
lacks their match arms (its `pending_kad_routing` map is declared and
consumed yet never inserted into by any src command). -/
inductive Command
  | startListening (ch : Chan) (listenOk : Bool)
  | bootstrap (ch : Chan)
  | waitIncomingConnection (ch : Chan)
  | countDHTPeers (ch : Chan)
  | getMultiaddress (ch : Chan)
  | getDHTEntries (ch : Chan)
  | addAddress (peer : PeerId) (addr : Multiaddr) (ch : Chan)
deriving DecidableEq

/-- The response channel carried by a command. -/
def Command.chan : Command → Chan
  | startListening ch _ => ch
  | bootstrap ch => ch
  | waitIncomingConnection ch => ch
  | countDHTPeers ch => ch
  | getMultiaddress ch => ch
  | getDHTEntries ch => ch
  | addAddress _ _ ch => ch

/-- The engine state of `EventLoop` (src/network/event_loop.rs): the
swarm's Kademlia behaviour, the local peer id, the three pending-command
maps and the bootstrap flag `BootstrapState::is_startup_done`. -/
structure EventLoop where
  kademlia : Kademlia
  localPeerId : PeerId
  pendingKadQueries : List (QueryId × Chan)
  pendingKadRouting : List (PeerId × Chan)
  pendingSwarmEvents : List (PeerId × Chan)
  isStartupDone : Bool
deriving DecidableEq

/-- `EventLoop::new`: empty pending maps, startup not done. -/
def EventLoop.new (k : Kademlia) (localPeerId : PeerId) : EventLoop :=
  ⟨k, localPeerId, [], [], [], false⟩

/-- The response of `Command::CountDHTPeers`: the sum of `num_entries`
over all kbuckets, i.e. the number of routing-table entries. -/
def countDHTPeersResp (s : EventLoop) : Nat := s.kademlia.table.length

/-- The response of `Command::GetDHTEntries` (modelled from the spec:
a synchronous read of the routing-table contents, no state change). -/
def dhtEntriesResp (s : EventLoop) : List (PeerId × List Multiaddr) := s.kademlia.table

/-- `EventLoop::handle_event`, returning the updated state and the
completions performed on one-shot channels. -/
def handle_event (s : EventLoop) : Event → EventLoop × List Completion
  | .routingUpdated peer =>
    match lookupA peer s.pendingKadRouting with
    | some ch =>
      ({ s with pendingKadRouting := removeA peer s.pendingKadRouting }, [.sendOk ch])
    | none => (s, [])
  | .bootstrapOk id _ numRemaining =>
    if numRemaining = 0 then
      match lookupA id s.pendingKadQueries with
      | some ch =>
        ({ s with pendingKadQueries := removeA id s.pendingKadQueries,
                  isStartupDone := true }, [.sendOk ch])
      | none => (s, [])
    else (s, [])
  | .bootstrapErr id =>
    match lookupA id s.pendingKadQueries with
    | some ch =>
      ({ s with pendingKadQueries := removeA id s.pendingKadQueries }, [.sendErr ch])
    | none => (s, [])
  | .otherQueryProgressed _ => (s, [])
  | .identifyReceived peer _ listenAddrs =>
    let addrs := listenAddrs.filter (fun a => containsSub tagP2p a)
    ({ s with kademlia := addrs.foldl (fun k a => kadAddAddress k peer a) s.kademlia }, [])
  | .autoNatEvent => (s, [])
  | .connectionClosed peer cause =>
    match cause with
    | some .ioError => ({ s with kademlia := kadRemovePeer s.kademlia peer }, [])
    | some .handlerError => ({ s with kademlia := kadRemovePeer s.kademlia peer }, [])
    | _ => (s, [])
  | .outgoingConnectionError peer =>
    match peer with
    | some p => ({ s with kademlia := kadRemovePeer s.kademlia p }, [])
    | none => (s, [])
  | .connectionEstablished isListener =>
    if isListener then
      match lookupA s.localPeerId s.pendingSwarmEvents with
      | some ch =>
        ({ s with pendingSwarmEvents := removeA s.localPeerId s.pendingSwarmEvents },
         [.sendUnit ch])
      | none => (s, [])
    else (s, [])
  | .newListenAddr => (s, [])

/-- The completion produced by a `HashMap::insert` overwriting an
existing entry for key `k`: the old sender is dropped. -/
def dropsA (k : Nat) (l : List (Nat × Chan)) : List Completion :=
  match lookupA k l with
  | some old => [Completion.dropped old]
  | none => []

/-- `EventLoop::handle_command`, returning the updated state, the
completions performed, and the channels newly inserted into a pending
map (the engine's `PendingCommand` insertions). -/
def handle_command (s : EventLoop) : Command → EventLoop × List Completion × List Chan
  | .startListening ch listenOk =>
    (s, [if listenOk then .sendOk ch else .sendErr ch], [])
  | .bootstrap ch =>
    match kadBootstrap s.kademlia with
    | (some qid, k) =>
      ({ s with kademlia := k,
                pendingKadQueries := insertA qid ch s.pendingKadQueries },
       dropsA qid s.pendingKadQueries,
       [ch])
    | (none, k) => ({ s with kademlia := k }, [.sendErr ch], [])
  | .waitIncomingConnection ch =>
    ({ s with pendingSwarmEvents := insertA s.localPeerId ch s.pendingSwarmEvents },
     dropsA s.localPeerId s.pendingSwarmEvents,
     [ch])
  | .countDHTPeers ch => (s, [.sendVal ch], [])
  | .getMultiaddress ch => (s, [.sendVal ch], [])
  | .getDHTEntries ch => (s, [.sendVal ch], [])
  | .addAddress peer addr ch =>
    ({ s with kademlia := kadAddAddress s.kademlia peer addr,
              pendingKadRouting := insertA peer ch s.pendingKadRouting },
     dropsA peer s.pendingKadRouting,
     [ch])

/-- `EventLoop::handle_periodic_bootstraps`: a timer tick re-issues a
fire-and-forget bootstrap query only once the initial bootstrap is done. -/
def handle_periodic_bootstraps (s : EventLoop) : EventLoop :=
  if s.isStartupDone then { s with kademlia := (kadBootstrap s.kademlia).2 } else s

/-- One iteration of the engine's select loop: a swarm event, an inbound
command, or a timer tick. -/
inductive Step
  | ev (e : Event)
  | cmd (c : Command)
  | tick
deriving DecidableEq

/-- Dispatch of one step, collecting completions and inserted channels. -/
def stepEL (s : EventLoop) : Step → EventLoop × List Completion × List Chan
  | .ev e => ((handle_event s e).1, (handle_event s e).2, [])
  | .cmd c => handle_command s c
  | .tick => (handle_periodic_bootstraps s, [], [])

/-- Run of the engine over a list of steps, accumulating all completions
and all pending-map insertions in order. -/
def run (s : EventLoop) : List Step → EventLoop × List Completion × List Chan
  | [] => (s, [], [])
  | t :: ts =>
    ((run (stepEL s t).1 ts).1,
     (stepEL s t).2.1 ++ (run (stepEL s t).1 ts).2.1,
     (stepEL s t).2.2 ++ (run (stepEL s t).1 ts).2.2)

/-- Engine shutdown (the command channel closed and `run` returned): the
`EventLoop` value is dropped, dropping every sender still held in a
pending map, which completes each waiting receiver with a channel-closed
error. -/
def terminate (s : EventLoop) : List Completion :=
  s.pendingKadQueries.map (fun e => Completion.dropped e.2) ++
  s.pendingKadRouting.map (fun e => Completion.dropped e.2) ++
  s.pendingSwarmEvents.map (fun e => Completion.dropped e.2)

/-- All channels currently held inside the three pending maps. -/
abbrev mapChans (s : EventLoop) : List Chan :=
  chansA s.pendingKadQueries ++ chansA s.pendingKadRouting ++ chansA s.pendingSwarmEvents

/-- The fresh response channels a step creates (one per command). -/
def stepChans : Step → List Chan
  | .cmd c => [c.chan]
  | _ => []

/-- The fresh response channels created along a trace. -/
def traceChans : List Step → List Chan
  | [] => []
  | t :: ts => stepChans t ++ traceChans ts

/-- The commands the client handle sends during its composite
`bootstrap()` operation. -/
inductive ClientCmd
  | getDHTEntries
  | waitIncomingConnection
  | bootstrap
deriving DecidableEq

/-- `Client::bootstrap` (src/network/client.rs): count the DHT entries;
if fewer than one, wait for an incoming connection; then issue the
bootstrap command and return its result.  `entries` is the engine's
response to the entries query and `bootRes` the engine's response to the
bootstrap command; the function returns the commands issued in order and
the value the composite call returns. -/
def client_bootstrap (entries : List (PeerId × List Multiaddr)) (bootRes : Bool) :
    List ClientCmd × Bool :=
  ([ClientCmd.getDHTEntries] ++
     (if entries.length < 1 then [ClientCmd.waitIncomingConnection] else []) ++
     [ClientCmd.bootstrap],
   bootRes)

/-- Character codes of an ASCII string literal; for the ASCII constants
of src/types.rs these coincide with their UTF-8 bytes. -/
def asciiBytes (s : String) : List Nat := s.data.map (fun c => c.toNat)

/-- First component of the network label computed by
`network_name` in src/types.rs, on the UTF-8 bytes of the genesis hash. -/
def networkOf (g : List Nat) : List Nat :=
  if g = asciiBytes "9d5ea6a5d7631e13028b684a1a0078e3970caa78bd677eaecaf2160304f174fb" then
    asciiBytes "hex"
  else if g = asciiBytes "d3d2f3a3495dc597434a99d7d449ebad6616db45e4e4f178f31cc6fa14378b70" then
    asciiBytes "turing"
  else if g = asciiBytes "DEV" then asciiBytes "local"
  else asciiBytes "other"

/-- A UTF-8 continuation byte, on which a Rust byte-range slice boundary
is invalid. -/
def isUtf8Continuation (b : Nat) : Bool := 128 ≤ b && b < 192

/-- `network_name` (src/types.rs) on the UTF-8 bytes of its argument:
the source evaluates `&genesis_hash[..6]`, which panics (`none`) when
the string is shorter than 6 bytes, or when byte 6 is not a character
boundary; otherwise it returns `"{network}:{first 6 bytes}"` (byte 58 is
the colon). -/
def network_name (g : List Nat) : Option (List Nat) :=
  if g.length < 6 then none
  else if ((g.drop 6).head?.elim false isUtf8Continuation) then none
  else some (networkOf g ++ 58 :: g.take 6)

/-- `str::trim_start_matches("0x")`: repeatedly strip a leading "0x". -/
def trimStartMatches0x : List Char → List Char
  | '0' :: 'x' :: rest => trimStartMatches0x rest
  | l => l

/-- The identify protocol id constant of src/types.rs. -/
def IDENTITY_PROTOCOL : List Char := "/avail_kad/id/1.0.0".toList

/-- The node's own identify protocol-version string, built by
`IdentifyConfig::from(&RuntimeConfig)`: the protocol id, a dash, and the
first six characters of the genesis hash with any leading "0x" removed. -/
def protocol_version (genesis_hash : List Char) : List Char :=
  IDENTITY_PROTOCOL ++ '-' :: (trimStartMatches0x genesis_hash).take 6

/-- `AgentVersion` of src/types.rs. -/
structure AgentVersion where
  base_version : List Char
  client_type : List Char
  kademlia_mode : List Char
deriving DecidableEq

/-- The `Display` implementation of `AgentVersion`:
`"{base_version}/{client_type}/{kademlia_mode}"`. -/
def AgentVersion.display (v : AgentVersion) : List Char :=
  v.base_version ++ '/' :: v.client_type ++ '/' :: v.kademlia_mode

/-- `str::split('/')` on a character list; splitting the empty string
yields one empty part, as in Rust. -/
def splitSlash : List Char → List (List Char)
  | [] => [[]]
  | c :: cs =>
    if c = '/' then [] :: splitSlash cs
    else
      match splitSlash cs with
      | [] => [[c]]
      | p :: ps => (c :: p) :: ps

/-- Joining parts back with slashes, the inverse of `splitSlash`. -/
def joinSlash : List (List Char) → List Char
  | [] => []
  | [p] => p
  | p :: ps => p ++ '/' :: joinSlash ps

/-- `AgentVersion::from_str`: split on slashes; succeed exactly on three
parts, otherwise return the parse-failure message. -/
def AgentVersion.from_str (s : List Char) : Except (List Char) AgentVersion :=
  match splitSlash s with
  | [a, b, c] => Except.ok ⟨a, b, c⟩
  | _ => Except.error ("Failed to parse agent version".toList)

deriving instance DecidableEq for Except

/-- Exactly-once bookkeeping for the pending-command maps: every channel
recorded in `ins` (inserted into a pending map) is accounted for by
exactly one occurrence either still inside a map or in the completion
log; map keys stay duplicate-free; and every channel seen so far belongs
to `used`, the set of response channels created by past commands. -/
structure PendingInv (used : List Chan) (s : EventLoop) (comps : List Completion)
    (ins : List Chan) : Prop where
  nodupQ : (keysA s.pendingKadQueries).Nodup
  nodupR : (keysA s.pendingKadRouting).Nodup
  nodupS : (keysA s.pendingSwarmEvents).Nodup
  once : ∀ c ∈ ins, (mapChans s).count c + (compChans comps).count c = 1
  mapSub : ∀ c ∈ mapChans s, c ∈ used
  insSub : ∀ c ∈ ins, c ∈ used
  compSub : ∀ c ∈ compChans comps, c ∈ used

theorem lookupA_mem {α : Type} {k : Nat} {v : α} :
    ∀ {l : List (Nat × α)}, lookupA k l = some v → (k, v) ∈ l := by
  intro l
  induction l with
  | nil => intro h; simp [lookupA] at h
  | cons e t ih =>
    intro h
    rcases e with ⟨a, b⟩
    by_cases he : a = k
    · subst he
      simp [lookupA] at h
      subst h
      exact List.mem_cons_self _ _
    · simp [lookupA, he] at h
      exact List.mem_cons_of_mem _ (ih h)

theorem mem_keysA_of_lookupA {α : Type} {k : Nat} {v : α} {l : List (Nat × α)}
    (h : lookupA k l = some v) : k ∈ keysA l := by
  have := lookupA_mem h
  exact List.mem_map_of_mem (·.1) this

theorem lookupA_eq_none_of_not_mem {α : Type} {k : Nat} :
    ∀ {l : List (Nat × α)}, k ∉ keysA l → lookupA k l = none := by
  intro l
  induction l with
  | nil => intro _; rfl
  | cons e t ih =>
    intro h
    rw [keysA, List.map_cons, List.mem_cons] at h
    push_neg at h
    rw [lookupA, if_neg (fun he => h.1 he.symm)]
    exact ih h.2

theorem removeA_eq_of_not_mem {α : Type} {k : Nat} :
    ∀ {l : List (Nat × α)}, k ∉ keysA l → removeA k l = l := by
  intro l
  induction l with
  | nil => intro _; rfl
  | cons e t ih =>
    intro h
    rw [keysA, List.map_cons, List.mem_cons] at h
    push_neg at h
    rw [removeA, if_neg (fun he => h.1 he.symm), ih h.2]

theorem removeA_sublist {α : Type} (k : Nat) :
    ∀ (l : List (Nat × α)), List.Sublist (removeA k l) l := by
  intro l
  induction l with
  | nil => exact List.Sublist.refl _
  | cons e t ih =>
    rw [removeA]
    by_cases he : e.1 = k
    · rw [if_pos he]; exact ih.cons _
    · rw [if_neg he]; exact ih.cons₂ _

theorem not_mem_keysA_removeA {α : Type} (k : Nat) :
    ∀ (l : List (Nat × α)), k ∉ keysA (removeA k l) := by
  intro l
  induction l with
  | nil => simp [removeA, keysA]
  | cons e t ih =>
    rw [removeA]
    by_cases he : e.1 = k
    · rw [if_pos he]; exact ih
    · rw [if_neg he]
      rw [keysA, List.map_cons, List.mem_cons]
      push_neg
      exact ⟨fun hk => he hk.symm, ih⟩

theorem lookupA_removeA_self {α : Type} (k : Nat) (l : List (Nat × α)) :
    lookupA k (removeA k l) = none :=
  lookupA_eq_none_of_not_mem (not_mem_keysA_removeA k l)

theorem keysA_nodup_removeA {α : Type} {k : Nat} {l : List (Nat × α)}
    (h : (keysA l).Nodup) : (keysA (removeA k l)).Nodup :=
  List.Nodup.sublist (List.Sublist.map (·.1) (removeA_sublist k l)) h

theorem keysA_nodup_insertA {α : Type} {k : Nat} {v : α} {l : List (Nat × α)}
    (h : (keysA l).Nodup) : (keysA (insertA k v l)).Nodup := by
  rw [insertA, keysA, List.map_cons, List.nodup_cons]
  exact ⟨not_mem_keysA_removeA k l, keysA_nodup_removeA h⟩

theorem lookupA_perm {α : Type} {k : Nat} {v : α} :
    ∀ {l : List (Nat × α)}, (keysA l).Nodup → lookupA k l = some v →
      l.Perm ((k, v) :: removeA k l) := by
  intro l
  induction l with
  | nil => intro _ h; simp [lookupA] at h
  | cons e t ih =>
    intro hn h
    rcases e with ⟨a, b⟩
    rw [keysA, List.map_cons, List.nodup_cons] at hn
    by_cases he : a = k
    · subst he
      simp [lookupA] at h
      subst h
      rw [removeA, if_pos rfl, removeA_eq_of_not_mem hn.1]
    · simp [lookupA, he] at h
      have hperm := ih hn.2 h
      rw [removeA, if_neg he]
      exact (hperm.cons (a, b)).trans (List.Perm.swap (k, v) (a, b) _)

theorem chansA_perm {k : Nat} {v : Chan} {l : List (Nat × Chan)}
    (hn : (keysA l).Nodup) (h : lookupA k l = some v) :
    (chansA l).Perm (v :: chansA (removeA k l)) := by
  have := (lookupA_perm hn h).map (·.2)
  simpa [chansA] using this

theorem mem_chansA_of_mem_removeA {k : Nat} {c : Chan} {l : List (Nat × Chan)}
    (h : c ∈ chansA (removeA k l)) : c ∈ chansA l :=
  (List.Sublist.map (·.2) (removeA_sublist k l)).mem h

theorem mem_keysA_kadAddAddress (k : Kademlia) (p : PeerId) (a : Multiaddr) :
    p ∈ keysA (kadAddAddress k p a).table := by
  rw [kadAddAddress]
  cases h : lookupA p k.table with
  | some v =>
    have hm : p ∈ keysA k.table := mem_keysA_of_lookupA h
    rw [keysA, List.map_map]
    have : ((fun e : PeerId × List Multiaddr => e.1) ∘
        fun e : PeerId × List Multiaddr => if e.1 = p then (e.1, e.2 ++ [a]) else e) =
        fun e : PeerId × List Multiaddr => e.1 := by
      funext e
      by_cases he : e.1 = p <;> simp [he]
    rw [this]
    exact hm
  | none =>
    rw [keysA, List.map_append]
    exact List.mem_append_right _ (by simp)

theorem splitSlash_ne_nil (l : List Char) : splitSlash l ≠ [] := by
  induction l with
  | nil => simp [splitSlash]
  | cons c cs ih =>
    by_cases hc : c = '/'
    · simp [splitSlash, hc]
    · cases h : splitSlash cs with
      | nil => simp [splitSlash, hc, h]
      | cons p ps => simp [splitSlash, hc, h]

theorem joinSlash_splitSlash (l : List Char) : joinSlash (splitSlash l) = l := by
  induction l with
  | nil => rfl
  | cons c cs ih =>
    by_cases hc : c = '/'
    · subst hc
      rw [splitSlash, if_pos rfl]
      cases h : splitSlash cs with
      | nil => exact absurd h (splitSlash_ne_nil cs)
      | cons p ps =>
        rw [h] at ih
        simp [joinSlash, ih]
    · rw [splitSlash, if_neg hc]
      cases h : splitSlash cs with
      | nil => exact absurd h (splitSlash_ne_nil cs)
      | cons p ps =>
        rw [h] at ih
        cases ps with
        | nil => simp [joinSlash] at ih ⊢; rw [ih]
        | cons q qs => simp [joinSlash] at ih ⊢; exact ih

/-- C10: a string with exactly three slash-separated parts parses into an
`AgentVersion` whose `Display` output reproduces the input character for
character, and any other number of parts is rejected with the parse
error. -/
theorem agent_version_roundtrip (s : List Char) :
    ((splitSlash s).length = 3 →
      ∃ v : AgentVersion, AgentVersion.from_str s = Except.ok v ∧ v.display = s) ∧
    ((splitSlash s).length ≠ 3 →
      AgentVersion.from_str s = Except.error ("Failed to parse agent version".toList)) := by
  constructor
  · intro h3
    rcases hs : splitSlash s with _ | ⟨a, _ | ⟨b, _ | ⟨c, _ | ⟨d, rest⟩⟩⟩⟩ <;>
      (rw [hs] at h3; simp at h3)
    refine ⟨⟨a, b, c⟩, ?_, ?_⟩
    · rw [AgentVersion.from_str, hs]
    · have hj := joinSlash_splitSlash s
      rw [hs] at hj
      simpa [AgentVersion.display, joinSlash] using hj
  · intro h3
    rcases hs : splitSlash s with _ | ⟨a, _ | ⟨b, _ | ⟨c, _ | ⟨d, rest⟩⟩⟩⟩ <;>
      (rw [AgentVersion.from_str, hs]
       try (exfalso; rw [hs] at h3; simp at h3))

/-- Witness for C10 at the concrete input "a/b/c". -/
theorem agent_version_roundtrip_witness :
    (splitSlash ("a/b/c".toList)).length = 3 ∧
    (∃ v : AgentVersion, AgentVersion.from_str ("a/b/c".toList) = Except.ok v ∧
      v.display = "a/b/c".toList) :=
  ⟨by decide, (agent_version_roundtrip _).1 (by decide)⟩

/-- C9: `network_name` slices the first six bytes of the genesis hash,
so every genesis-hash string shorter than six bytes makes it panic
(modelled as `none`); its witness instantiates this at the documented
value "DEV". -/
theorem network_name_short_panics (g : List Nat) (h : g.length < 6) :
    network_name g = none := by
  simp [network_name, h]

/-- Witness for C9: the permitted configuration value "DEV" is three
bytes long, so `network_name` panics on it instead of returning
"local:DEV". -/
theorem network_name_short_panics_witness :
    (asciiBytes "DEV").length < 6 ∧ network_name (asciiBytes "DEV") = none :=
  ⟨by decide, network_name_short_panics _ (by decide)⟩

/-- C7: the composite client bootstrap issues the entry-count query
first and the bootstrap command last, interposes the
wait-for-incoming-connection command exactly when the table was empty,
and returns the bootstrap command's result. -/
theorem client_bootstrap_sequence (entries : List (PeerId × List Multiaddr)) (bootRes : Bool) :
    (client_bootstrap entries bootRes).1 =
      (if entries.length = 0 then
        [ClientCmd.getDHTEntries, ClientCmd.waitIncomingConnection, ClientCmd.bootstrap]
      else [ClientCmd.getDHTEntries, ClientCmd.bootstrap]) ∧
    (ClientCmd.waitIncomingConnection ∈ (client_bootstrap entries bootRes).1 ↔
      entries.length = 0) ∧
    (client_bootstrap entries bootRes).2 = bootRes := by
  cases entries with
  | nil => simp [client_bootstrap]
  | cons e t => simp [client_bootstrap]

/-- The engine's own identify protocol-version string for the production
genesis hash, per `IdentifyConfig::from(&RuntimeConfig)`. -/
def ownVersionC1 : List Char :=
  protocol_version ("9d5ea6a5d7631e13028b684a1a0078e3970caa78bd677eaecaf2160304f174fb".toList)

/-- A protocol-version string of a node on a different network. -/
def otherVersionC1 : List Char :=
  protocol_version ("d3d2f3a3495dc597434a99d7d449ebad6616db45e4e4f178f31cc6fa14378b70".toList)

/-- A listen address whose textual form carries a p2p suffix. -/
def addrC1 : Multiaddr := "/ip4/7.7.7.7/udp/1/quic-v1/p2p/12D3KooWQQQQ".toList

/-- A freshly constructed engine used by concrete counterexamples. -/
def loopC1 : EventLoop := EventLoop.new ⟨[], 0⟩ 99

/-- C1 counterexample: an identify-received event whose protocol-version
differs from this node's own configured protocol-version string still
gets its p2p-tagged listen address registered in the routing table — the
engine never consults the version. -/
theorem identify_version_not_checked_counterexample :
    otherVersionC1 ≠ ownVersionC1 ∧
    (handle_event loopC1 (Event.identifyReceived 1 otherVersionC1 [addrC1])).1.kademlia.table
      = [(1, [addrC1])] := by decide

/-- C1 amended: on an identify-received event the engine registers
exactly the listen addresses whose textual form contains the "p2p"
protocol tag, independently of the event's protocol-version string (the
version is never consulted) and regardless of which peer identifier the
address suffix carries. -/
theorem identify_adds_p2p_tagged_addresses (s : EventLoop) (p : PeerId)
    (v v' : List Char) (addrs : List Multiaddr) :
    handle_event s (Event.identifyReceived p v addrs)
      = handle_event s (Event.identifyReceived p v' addrs) ∧
    (handle_event s (Event.identifyReceived p v addrs)).1.kademlia
      = (addrs.filter (fun a => containsSub tagP2p a)).foldl
          (fun k a => kadAddAddress k p a) s.kademlia ∧
    (handle_event s (Event.identifyReceived p v addrs)).2 = [] :=
  ⟨rfl, rfl, rfl⟩

/-- C5: a connection-closed event whose cause is an I/O or
protocol-handler failure removes the peer from the routing table, so it
is absent from the entries and uncounted afterwards; a keep-alive
timeout cause, or no cause at all, leaves the engine state untouched. -/
theorem connection_closed_eviction (s : EventLoop) (p : PeerId)
    (cause : Option ConnectionError) :
    ((cause = some ConnectionError.ioError ∨ cause = some ConnectionError.handlerError) →
      p ∉ keysA (dhtEntriesResp (handle_event s (Event.connectionClosed p cause)).1) ∧
      countDHTPeersResp (handle_event s (Event.connectionClosed p cause)).1
        = (removeA p s.kademlia.table).length) ∧
    ((cause = some ConnectionError.keepAliveTimeout ∨ cause = none) →
      handle_event s (Event.connectionClosed p cause) = (s, [])) := by
  constructor
  · rintro (rfl | rfl) <;>
      exact ⟨not_mem_keysA_removeA p s.kademlia.table, rfl⟩
  · rintro (rfl | rfl) <;> rfl

/-- A sample engine whose routing table holds peers 4 and 9. -/
def loopC5 : EventLoop := ⟨⟨[(4, []), (9, [])], 0⟩, 99, [], [], [], true⟩

/-- Witness for C5: peer 4 is evicted on an I/O-failure close and kept
on a keep-alive-timeout close. -/
theorem connection_closed_eviction_witness :
    (4 ∉ keysA (dhtEntriesResp
        (handle_event loopC5 (Event.connectionClosed 4 (some ConnectionError.ioError))).1) ∧
      countDHTPeersResp
        (handle_event loopC5 (Event.connectionClosed 4 (some ConnectionError.ioError))).1
        = (removeA 4 loopC5.kademlia.table).length) ∧
    handle_event loopC5 (Event.connectionClosed 4 (some ConnectionError.keepAliveTimeout))
      = (loopC5, []) :=
  ⟨(connection_closed_eviction loopC5 4 _).1 (Or.inl rfl),
   (connection_closed_eviction loopC5 4 _).2 (Or.inl rfl)⟩

theorem flag_preserved_latch (s : EventLoop) (t : Step)
    (hflag : (stepEL s t).1.isStartupDone = s.isStartupDone)
    (hex : ∀ id peer, t = Step.ev (Event.bootstrapOk id peer 0) →
      (lookupA id s.pendingKadQueries).isSome = true → False) :
    (s.isStartupDone = true → (stepEL s t).1.isStartupDone = true) ∧
    (s.isStartupDone = false →
      ((stepEL s t).1.isStartupDone = true ↔
        ∃ id peer, t = Step.ev (Event.bootstrapOk id peer 0) ∧
          (lookupA id s.pendingKadQueries).isSome = true)) := by
  refine ⟨fun hs => by rw [hflag]; exact hs, fun hs => ⟨fun h => ?_, fun h => ?_⟩⟩
  · rw [hflag, hs] at h; simp at h
  · rcases h with ⟨id, peer, htt, hsome⟩
    exact (hex id peer htt hsome).elim

/-- C4: `is_startup_done` is a monotone one-way latch: once true it
stays true under every event, command and timer tick; from false it
becomes true exactly on a bootstrap-progress success event reporting
zero remaining peers whose query id has a pending entry — in particular
never on a bootstrap error event. -/
theorem startup_latch (s : EventLoop) (t : Step) :
    (s.isStartupDone = true → (stepEL s t).1.isStartupDone = true) ∧
    (s.isStartupDone = false →
      ((stepEL s t).1.isStartupDone = true ↔
        ∃ id peer, t = Step.ev (Event.bootstrapOk id peer 0) ∧
          (lookupA id s.pendingKadQueries).isSome = true)) := by
  cases t with
  | tick =>
    refine flag_preserved_latch s _ ?_ (fun id peer htt _ => Step.noConfusion htt)
    simp only [stepEL, handle_periodic_bootstraps]
    split <;> rfl
  | cmd c =>
    refine flag_preserved_latch s _ ?_ (fun id peer htt _ => Step.noConfusion htt)
    cases c with
    | bootstrap ch =>
      rcases hkb : kadBootstrap s.kademlia with ⟨oq, k⟩
      cases oq <;> simp [stepEL, handle_command, hkb]
    | startListening ch ok => rfl
    | waitIncomingConnection ch => rfl
    | countDHTPeers ch => rfl
    | getMultiaddress ch => rfl
    | getDHTEntries ch => rfl
    | addAddress peer addr ch => rfl
  | ev e =>
    cases e with
    | bootstrapOk id peer n =>
      by_cases hn : n = 0
      · subst hn
        cases hl : lookupA id s.pendingKadQueries with
        | some ch =>
          refine ⟨fun hs => ?_, fun hs => ⟨fun h => ?_, fun h => ?_⟩⟩
          · simp [stepEL, handle_event, hl]
          · exact ⟨id, peer, rfl, by simp [hl]⟩
          · simp [stepEL, handle_event, hl]
        | none =>
          refine flag_preserved_latch s _ (by simp [stepEL, handle_event, hl]) ?_
          intro id2 peer2 htt hsome
          simp at htt
          rw [← htt.1, hl] at hsome
          simp at hsome
      · refine flag_preserved_latch s _ (by simp [stepEL, handle_event, hn]) ?_
        intro id2 peer2 htt _
        simp at htt
        exact hn htt.2.2
    | routingUpdated peer =>
      refine flag_preserved_latch s _ ?_ (fun id2 p2 htt _ => by simp at htt)
      cases hl : lookupA peer s.pendingKadRouting <;> simp [stepEL, handle_event, hl]
    | bootstrapErr id =>
      refine flag_preserved_latch s _ ?_ (fun id2 p2 htt _ => by simp at htt)
      cases hl : lookupA id s.pendingKadQueries <;> simp [stepEL, handle_event, hl]
    | otherQueryProgressed id =>
      exact flag_preserved_latch s _ rfl (fun id2 p2 htt _ => by simp at htt)
    | identifyReceived p v addrs =>
      exact flag_preserved_latch s _ rfl (fun id2 p2 htt _ => by simp at htt)
    | autoNatEvent =>
      exact flag_preserved_latch s _ rfl (fun id2 p2 htt _ => by simp at htt)
    | connectionClosed p cause =>
      refine flag_preserved_latch s _ ?_ (fun id2 p2 htt _ => by simp at htt)
      rcases cause with - | ce
      · rfl
      · cases ce <;> rfl
    | outgoingConnectionError po =>
      refine flag_preserved_latch s _ ?_ (fun id2 p2 htt _ => by simp at htt)
      cases po <;> rfl
    | connectionEstablished isListener =>
      refine flag_preserved_latch s _ ?_ (fun id2 p2 htt _ => by simp at htt)
      cases isListener with
      | false => rfl
      | true =>
        cases hl : lookupA s.localPeerId s.pendingSwarmEvents <;>
          simp [stepEL, handle_event, hl]
    | newListenAddr =>
      exact flag_preserved_latch s _ rfl (fun id2 p2 htt _ => by simp at htt)

/-- A sample engine before its startup bootstrap completed, with a
pending bootstrap query 5 awaited on channel 3. -/
def loopC4a : EventLoop := ⟨⟨[(2, [])], 0⟩, 99, [(5, 3)], [], [], false⟩

/-- A sample engine whose startup bootstrap already completed. -/
def loopC4b : EventLoop := ⟨⟨[(2, [])], 0⟩, 99, [], [], [], true⟩

/-- Witness for C4: a bootstrap error event keeps the latch set, and
from the unset state the flag flips exactly under the matching
successful zero-remaining bootstrap event. -/
theorem startup_latch_witness :
    (stepEL loopC4b (Step.ev (Event.bootstrapErr 5))).1.isStartupDone = true ∧
    ((stepEL loopC4a (Step.ev (Event.bootstrapOk 5 2 0))).1.isStartupDone = true ↔
      ∃ id peer, Step.ev (Event.bootstrapOk 5 2 0) = Step.ev (Event.bootstrapOk id peer 0) ∧
        (lookupA id loopC4a.pendingKadQueries).isSome = true) :=
  ⟨(startup_latch loopC4b (Step.ev (Event.bootstrapErr 5))).1 rfl,
   (startup_latch loopC4a (Step.ev (Event.bootstrapOk 5 2 0))).2 rfl⟩

theorem not_mem_keysA_of_lookupA_none {α : Type} {k : Nat} :
    ∀ {l : List (Nat × α)}, lookupA k l = none → k ∉ keysA l := by
  intro l
  induction l with
  | nil => intro _ hm; simp at hm
  | cons e t ih =>
    intro h hm
    rw [lookupA] at h
    by_cases he : e.1 = k
    · rw [if_pos he] at h; exact Option.noConfusion h
    · rw [if_neg he] at h
      rw [keysA, List.map_cons, List.mem_cons] at hm
      rcases hm with hm | hm
      · exact he hm.symm
      · exact ih h hm

/-- C6: a Bootstrap command on an empty routing table sends the error
synchronously, inserts no pending entry and starts no query (the engine
state is untouched); on a non-empty table it starts the query, records
the fresh query id against the caller's channel with no synchronous
response, and the later zero-remaining success event for that query id
answers the channel.  The hypothesis states the engine's counter
freshness: no pending entry already uses the next query id. -/
theorem bootstrap_command_semantics (s : EventLoop) (ch : Chan)
    (hfresh : lookupA s.kademlia.nextQueryId s.pendingKadQueries = none) :
    (s.kademlia.table = [] →
      handle_command s (Command.bootstrap ch) = (s, [Completion.sendErr ch], [])) ∧
    (s.kademlia.table ≠ [] →
      handle_command s (Command.bootstrap ch) =
        ({ s with
            kademlia := { s.kademlia with nextQueryId := s.kademlia.nextQueryId + 1 },
            pendingKadQueries := (s.kademlia.nextQueryId, ch) :: s.pendingKadQueries },
         [], [ch]) ∧
      ∀ peer, (handle_event (handle_command s (Command.bootstrap ch)).1
          (Event.bootstrapOk s.kademlia.nextQueryId peer 0)).2
        = [Completion.sendOk ch]) := by
  constructor
  · intro hempty
    have hkb : kadBootstrap s.kademlia = (none, s.kademlia) := by
      rw [kadBootstrap, if_pos (by simp [hempty])]
    simp [handle_command, hkb]

  · intro hne
    have hkb : kadBootstrap s.kademlia =
        (some s.kademlia.nextQueryId,
         { s.kademlia with nextQueryId := s.kademlia.nextQueryId + 1 }) := by
      rw [kadBootstrap, if_neg (by simp [hne])]
    have hrm : removeA s.kademlia.nextQueryId s.pendingKadQueries = s.pendingKadQueries :=
      removeA_eq_of_not_mem (not_mem_keysA_of_lookupA_none hfresh)
    constructor
    · simp [handle_command, hkb, dropsA, hfresh, insertA, hrm]
    · intro peer
      have h1 : (handle_command s (Command.bootstrap ch)).1.pendingKadQueries
          = (s.kademlia.nextQueryId, ch) :: s.pendingKadQueries := by
        simp [handle_command, hkb, insertA, hrm]
      simp [handle_event, h1, lookupA]

/-- A sample engine with an empty routing table. -/
def loopC6a : EventLoop := EventLoop.new ⟨[], 0⟩ 99

/-- A sample engine with peer 3 in the routing table and counter 5. -/
def loopC6b : EventLoop := EventLoop.new ⟨[(3, [])], 5⟩ 99

/-- Witness for C6 at both branches: the empty-table synchronous error
and the non-empty-table pending insertion answered by the later event. -/
theorem bootstrap_command_semantics_witness :
    handle_command loopC6a (Command.bootstrap 0) = (loopC6a, [Completion.sendErr 0], []) ∧
    (handle_event (handle_command loopC6b (Command.bootstrap 1)).1
        (Event.bootstrapOk loopC6b.kademlia.nextQueryId 3 0)).2 = [Completion.sendOk 1] :=
  ⟨(bootstrap_command_semantics loopC6a 0 rfl).1 rfl,
   ((bootstrap_command_semantics loopC6b 1 rfl).2 (by decide)).2 3⟩

/-- C3: an AddAddress command (modelled from the spec) registers the
address so the peer appears in the routing-table entries, and the
routing-updated event for that peer then completes the caller's channel
with success and removes the pending acknowledgement entry, after which
the peer is still among the DHT entries. -/
theorem add_address_ack (s : EventLoop) (p : PeerId) (a : Multiaddr) (ch : Chan) :
    p ∈ keysA (dhtEntriesResp (handle_command s (Command.addAddress p a ch)).1) ∧
    (handle_event (handle_command s (Command.addAddress p a ch)).1
        (Event.routingUpdated p)).2 = [Completion.sendOk ch] ∧
    lookupA p (handle_event (handle_command s (Command.addAddress p a ch)).1
        (Event.routingUpdated p)).1.pendingKadRouting = none ∧
    p ∈ keysA (dhtEntriesResp (handle_event (handle_command s (Command.addAddress p a ch)).1
        (Event.routingUpdated p)).1) := by
  have h1 : (handle_command s (Command.addAddress p a ch)).1.pendingKadRouting
      = (p, ch) :: removeA p s.pendingKadRouting := rfl
  have h2 : (handle_command s (Command.addAddress p a ch)).1.kademlia
      = kadAddAddress s.kademlia p a := rfl
  have hlook : lookupA p ((p, ch) :: removeA p s.pendingKadRouting) = some ch := by
    simp [lookupA]
  refine ⟨?_, ?_, ?_, ?_⟩
  · rw [dhtEntriesResp, h2]
    exact mem_keysA_kadAddAddress s.kademlia p a
  · simp [handle_event, h1, hlook]
  · simp only [handle_event, h1, hlook]
    rw [removeA, if_pos rfl]
    exact lookupA_removeA_self p (removeA p s.pendingKadRouting)
  · simp only [handle_event, h1, hlook]
    rw [dhtEntriesResp]
    exact mem_keysA_kadAddAddress s.kademlia p a

/-- C8: timer ticks perform no completions and no pending-map
insertions; while `is_startup_done` is false they change nothing at all,
and once it is true each tick fire-and-forgets one bootstrap query
(advancing the query counter when the table is non-empty, and doing
nothing on an empty table); being a plain equation over every state and
every number of ticks, the cycle continues for the life of the engine. -/
theorem periodic_bootstrap_ticks (s : EventLoop) (n : Nat) :
    run s (List.replicate n Step.tick) =
      ((if s.isStartupDone then
          { s with kademlia :=
              { table := s.kademlia.table,
                nextQueryId := s.kademlia.nextQueryId +
                  (if s.kademlia.table.isEmpty then 0 else n) } }
        else s), [], []) := by
  induction n generalizing s with
  | zero =>
    rcases s with ⟨⟨tb, nq⟩, lp, q, r, w, fl⟩
    cases fl <;> simp [run]
  | succ n ih =>
    rcases s with ⟨⟨tb, nq⟩, lp, q, r, w, fl⟩
    rw [List.replicate_succ]
    cases fl with
    | false =>
      have hstep : stepEL ⟨⟨tb, nq⟩, lp, q, r, w, false⟩ Step.tick
          = (⟨⟨tb, nq⟩, lp, q, r, w, false⟩, [], []) := by
        simp [stepEL, handle_periodic_bootstraps]
      simp [run, hstep, ih]
    | true =>
      rcases tb with - | ⟨e, tb2⟩
      · have hstep : stepEL ⟨⟨[], nq⟩, lp, q, r, w, true⟩ Step.tick
            = (⟨⟨[], nq⟩, lp, q, r, w, true⟩, [], []) := by
          simp [stepEL, handle_periodic_bootstraps, kadBootstrap]
        simp [run, hstep, ih]
      · have hstep : stepEL ⟨⟨e :: tb2, nq⟩, lp, q, r, w, true⟩ Step.tick
            = (⟨⟨e :: tb2, nq + 1⟩, lp, q, r, w, true⟩, [], []) := by
          simp [stepEL, handle_periodic_bootstraps, kadBootstrap]
        simp [run, hstep, ih]
        omega

theorem count_cons_eq (a : Chan) (l : List Chan) (c : Chan) :
    (a :: l).count c = l.count c + (if c = a then 1 else 0) := by
  by_cases h : c = a <;> simp [h, List.count_cons]

theorem count_chansA_remove {k ch : Nat} {X : List (Nat × Chan)}
    (hn : (keysA X).Nodup) (hl : lookupA k X = some ch) (c : Chan) :
    (chansA X).count c
      = (chansA (removeA k X)).count c + (if c = ch then 1 else 0) := by
  have hperm := chansA_perm hn hl
  rw [hperm.count_eq]
  exact count_cons_eq ch _ c

theorem count_chansA_remove_le (k : Nat) (X : List (Nat × Chan)) (c : Chan) :
    (chansA (removeA k X)).count c ≤ (chansA X).count c :=
  List.Sublist.count_le (List.Sublist.map (·.2) (removeA_sublist k X)) c

theorem mem_used_Q {used : List Chan} {s : EventLoop} {comps : List Completion}
    {ins : List Chan} (h : PendingInv used s comps ins) :
    ∀ c ∈ chansA s.pendingKadQueries, c ∈ used := fun c hc =>
  h.mapSub c (List.mem_append_left _ (List.mem_append_left _ hc))

theorem mem_used_R {used : List Chan} {s : EventLoop} {comps : List Completion}
    {ins : List Chan} (h : PendingInv used s comps ins) :
    ∀ c ∈ chansA s.pendingKadRouting, c ∈ used := fun c hc =>
  h.mapSub c (List.mem_append_left _ (List.mem_append_right _ hc))

theorem mem_used_W {used : List Chan} {s : EventLoop} {comps : List Completion}
    {ins : List Chan} (h : PendingInv used s comps ins) :
    ∀ c ∈ chansA s.pendingSwarmEvents, c ∈ used := fun c hc =>
  h.mapSub c (List.mem_append_right _ hc)

theorem pendinginv_same_maps {used : List Chan} {s : EventLoop} {comps : List Completion}
    {ins : List Chan} (h : PendingInv used s comps ins) (s2 : EventLoop)
    (hq : s2.pendingKadQueries = s.pendingKadQueries)
    (hr : s2.pendingKadRouting = s.pendingKadRouting)
    (hw : s2.pendingSwarmEvents = s.pendingSwarmEvents) :
    PendingInv used s2 comps ins := by
  have hm : mapChans s2 = mapChans s := by
    simp only [mapChans, hq, hr, hw]
  refine ⟨?_, ?_, ?_, ?_, ?_, h.insSub, h.compSub⟩
  · rw [hq]; exact h.nodupQ
  · rw [hr]; exact h.nodupR
  · rw [hw]; exact h.nodupS
  · intro c hc; rw [hm]; exact h.once c hc
  · intro c hc; rw [hm] at hc; exact h.mapSub c hc

theorem pendinginv_send_now {used : List Chan} {s : EventLoop} {comps : List Completion}
    {ins : List Chan} (h : PendingInv used s comps ins) (s2 : EventLoop) (comp : Completion)
    (hq : s2.pendingKadQueries = s.pendingKadQueries)
    (hr : s2.pendingKadRouting = s.pendingKadRouting)
    (hw : s2.pendingSwarmEvents = s.pendingSwarmEvents)
    (hch : Completion.chan comp ∉ used) :
    PendingInv (used ++ [Completion.chan comp]) s2 (comps ++ [comp]) ins := by
  have hm : mapChans s2 = mapChans s := by
    simp only [mapChans, hq, hr, hw]
  refine ⟨by rw [hq]; exact h.nodupQ, by rw [hr]; exact h.nodupR,
    by rw [hw]; exact h.nodupS, ?_, ?_, ?_, ?_⟩
  · intro c hc
    have h1 := h.once c hc
    have hcu : c ∈ used := h.insSub c hc
    have hne : c ≠ Completion.chan comp := fun he => hch (he ▸ hcu)
    rw [hm]
    simp only [compChans, List.map_append, List.map_cons, List.map_nil,
      List.count_append] at h1 ⊢
    rw [count_cons_eq, if_neg hne]
    simp only [List.count_nil]
    omega
  · intro c hc
    rw [hm] at hc
    exact List.mem_append_left _ (h.mapSub c hc)
  · intro c hc
    exact List.mem_append_left _ (h.insSub c hc)
  · intro c hc
    simp only [compChans, List.map_append, List.map_cons, List.map_nil,
      List.mem_append] at hc
    rcases hc with hc | hc
    · exact List.mem_append_left _ (h.compSub c hc)
    · simp only [List.mem_singleton] at hc
      subst hc
      exact List.mem_append_right _ (List.mem_singleton_self _)

theorem pendinginv_remove_Q {used : List Chan} {s : EventLoop} {comps : List Completion}
    {ins : List Chan} (h : PendingInv used s comps ins) {k ch : Nat}
    (hl : lookupA k s.pendingKadQueries = some ch) (s2 : EventLoop) (comp : Completion)
    (hcs : Completion.chan comp = ch)
    (hq : s2.pendingKadQueries = removeA k s.pendingKadQueries)
    (hr : s2.pendingKadRouting = s.pendingKadRouting)
    (hw : s2.pendingSwarmEvents = s.pendingSwarmEvents) :
    PendingInv used s2 (comps ++ [comp]) ins := by
  have hchm : ch ∈ chansA s.pendingKadQueries :=
    List.mem_map_of_mem (·.2) (lookupA_mem hl)
  have hchu : ch ∈ used := mem_used_Q h ch hchm
  refine ⟨by rw [hq]; exact keysA_nodup_removeA h.nodupQ,
    by rw [hr]; exact h.nodupR, by rw [hw]; exact h.nodupS, ?_, ?_, h.insSub, ?_⟩
  · intro c hc
    have h1 := h.once c hc
    have hcnt := count_chansA_remove h.nodupQ hl c
    simp only [mapChans, compChans, List.count_append] at h1
    simp only [mapChans, hq, hr, hw, compChans, List.map_append, List.map_cons,
      List.map_nil, List.count_append, count_cons_eq, List.count_nil, hcs]
    by_cases hce : c = ch
    · rw [if_pos hce]; rw [if_pos hce] at hcnt; omega
    · rw [if_neg hce]; rw [if_neg hce] at hcnt; omega
  · intro c hc
    simp only [mapChans, hq, hr, hw, List.mem_append] at hc
    rcases hc with (hc | hc) | hc
    · exact h.mapSub c (List.mem_append_left _ (List.mem_append_left _
        (mem_chansA_of_mem_removeA hc)))
    · exact h.mapSub c (List.mem_append_left _ (List.mem_append_right _ hc))
    · exact h.mapSub c (List.mem_append_right _ hc)
  · intro c hc
    simp only [compChans, List.map_append, List.map_cons, List.map_nil,
      List.mem_append, List.mem_singleton] at hc
    rcases hc with hc | hc
    · exact h.compSub c hc
    · rw [hc, hcs]; exact hchu

theorem pendinginv_insert_Q {used : List Chan} {s : EventLoop} {comps : List Completion}
    {ins : List Chan} (h : PendingInv used s comps ins) (k : Nat) {ch0 : Chan}
    (s2 : EventLoop)
    (hq : s2.pendingKadQueries = insertA k ch0 s.pendingKadQueries)
    (hr : s2.pendingKadRouting = s.pendingKadRouting)
    (hw : s2.pendingSwarmEvents = s.pendingSwarmEvents)
    (hch : ch0 ∉ used) :
    PendingInv (used ++ [ch0]) s2 (comps ++ dropsA k s.pendingKadQueries) (ins ++ [ch0]) := by
  have hQ0 : (chansA s.pendingKadQueries).count ch0 = 0 :=
    List.count_eq_zero.mpr (fun hm => hch (mem_used_Q h ch0 hm))
  have hR0 : (chansA s.pendingKadRouting).count ch0 = 0 :=
    List.count_eq_zero.mpr (fun hm => hch (mem_used_R h ch0 hm))
  have hW0 : (chansA s.pendingSwarmEvents).count ch0 = 0 :=
    List.count_eq_zero.mpr (fun hm => hch (mem_used_W h ch0 hm))
  have hC0 : (List.map Completion.chan comps).count ch0 = 0 :=
    List.count_eq_zero.mpr (fun hm => hch (h.compSub ch0 hm))
  have hins : chansA (insertA k ch0 s.pendingKadQueries)
      = ch0 :: chansA (removeA k s.pendingKadQueries) := rfl
  refine ⟨by rw [hq]; exact keysA_nodup_insertA h.nodupQ,
    by rw [hr]; exact h.nodupR, by rw [hw]; exact h.nodupS, ?_, ?_, ?_, ?_⟩
  · intro c hc
    rw [List.mem_append, List.mem_singleton] at hc
    cases hld : lookupA k s.pendingKadQueries with
    | none =>
      have hrme : removeA k s.pendingKadQueries = s.pendingKadQueries :=
        removeA_eq_of_not_mem (not_mem_keysA_of_lookupA_none hld)
      have hdr : dropsA k s.pendingKadQueries = [] := by simp [dropsA, hld]
      rcases hc with hc | rfl
      · have h1 := h.once c hc
        have hcu : c ∈ used := h.insSub c hc
        have hne : c ≠ ch0 := fun he => hch (he ▸ hcu)
        simp only [mapChans, compChans, List.count_append] at h1
        simp only [mapChans, hq, hr, hw, hins, hrme, hdr, List.append_nil, compChans,
          List.count_append, count_cons_eq]
        rw [if_neg hne]
        omega
      · simp only [mapChans, hq, hr, hw, hins, hrme, hdr, List.append_nil, compChans,
          List.count_append, count_cons_eq]
        rw [if_pos trivial]
        omega
    | some old =>
      have hdr : dropsA k s.pendingKadQueries = [Completion.dropped old] := by
        simp [dropsA, hld]
      have hold : old ∈ chansA s.pendingKadQueries :=
        List.mem_map_of_mem (·.2) (lookupA_mem hld)
      have holdu : old ∈ used := mem_used_Q h old hold
      rcases hc with hc | rfl
      · have h1 := h.once c hc
        have hcu : c ∈ used := h.insSub c hc
        have hne : c ≠ ch0 := fun he => hch (he ▸ hcu)
        have hcnt := count_chansA_remove h.nodupQ hld c
        simp only [mapChans, compChans, List.count_append] at h1
        simp only [mapChans, hq, hr, hw, hins, hdr, compChans, List.map_append,
          List.map_cons, List.map_nil, Completion.chan, List.count_append,
          count_cons_eq, List.count_nil]
        rw [if_neg hne]
        by_cases hco : c = old
        · rw [if_pos hco]; rw [if_pos hco] at hcnt; omega
        · rw [if_neg hco]; rw [if_neg hco] at hcnt; omega
      · have hne2 : c ≠ old := fun he => hch (he ▸ holdu)
        have hrm0 : (chansA (removeA k s.pendingKadQueries)).count c = 0 := by
          have := count_chansA_remove_le k s.pendingKadQueries c
          omega
        simp only [mapChans, hq, hr, hw, hins, hdr, compChans, List.map_append,
          List.map_cons, List.map_nil, Completion.chan, List.count_append,
          count_cons_eq, List.count_nil]
        rw [if_pos trivial, if_neg hne2]
        omega
  · intro c hc
    simp only [mapChans, hq, hr, hw, hins, List.mem_append, List.mem_cons] at hc
    rcases hc with ((rfl | hc) | hc) | hc
    · exact List.mem_append_right _ (List.mem_singleton_self _)
    · exact List.mem_append_left _ (h.mapSub c (List.mem_append_left _
        (List.mem_append_left _ (mem_chansA_of_mem_removeA hc))))
    · exact List.mem_append_left _ (h.mapSub c (List.mem_append_left _
        (List.mem_append_right _ hc)))
    · exact List.mem_append_left _ (h.mapSub c (List.mem_append_right _ hc))
  · intro c hc
    rw [List.mem_append] at hc
    rcases hc with hc | hc
    · exact List.mem_append_left _ (h.insSub c hc)
    · exact List.mem_append_right _ hc
  · intro c hc
    cases hld : lookupA k s.pendingKadQueries with
    | none =>
      have hdr : dropsA k s.pendingKadQueries = [] := by simp [dropsA, hld]
      rw [hdr, List.append_nil] at hc
      exact List.mem_append_left _ (h.compSub c hc)
    | some old =>
      have hdr : dropsA k s.pendingKadQueries = [Completion.dropped old] := by
        simp [dropsA, hld]
      rw [hdr] at hc
      simp only [compChans, List.map_append, List.map_cons, List.map_nil,
        Completion.chan, List.mem_append, List.mem_singleton] at hc
      rcases hc with hc | hc
      · exact List.mem_append_left _ (h.compSub c hc)
      · rw [hc]
        exact List.mem_append_left _ (mem_used_Q h old
          (List.mem_map_of_mem (·.2) (lookupA_mem hld)))

theorem pendinginv_remove_R {used : List Chan} {s : EventLoop} {comps : List Completion}
    {ins : List Chan} (h : PendingInv used s comps ins) {k ch : Nat}
    (hl : lookupA k s.pendingKadRouting = some ch) (s2 : EventLoop) (comp : Completion)
    (hcs : Completion.chan comp = ch)
    (hq : s2.pendingKadQueries = s.pendingKadQueries)
    (hr : s2.pendingKadRouting = removeA k s.pendingKadRouting)
    (hw : s2.pendingSwarmEvents = s.pendingSwarmEvents) :
    PendingInv used s2 (comps ++ [comp]) ins := by
  have hchm : ch ∈ chansA s.pendingKadRouting :=
    List.mem_map_of_mem (·.2) (lookupA_mem hl)
  have hchu : ch ∈ used := mem_used_R h ch hchm
  refine ⟨by rw [hq]; exact h.nodupQ,
    by rw [hr]; exact keysA_nodup_removeA h.nodupR,
    by rw [hw]; exact h.nodupS, ?_, ?_, h.insSub, ?_⟩
  · intro c hc
    have h1 := h.once c hc
    have hcnt := count_chansA_remove h.nodupR hl c
    simp only [mapChans, compChans, List.count_append] at h1
    simp only [mapChans, hq, hr, hw, compChans, List.map_append, List.map_cons,
      List.map_nil, List.count_append, count_cons_eq, List.count_nil, hcs]
    by_cases hce : c = ch
    · rw [if_pos hce]; rw [if_pos hce] at hcnt; omega
    · rw [if_neg hce]; rw [if_neg hce] at hcnt; omega
  · intro c hc
    simp only [mapChans, hq, hr, hw, List.mem_append] at hc
    rcases hc with (hc | hc) | hc
    · exact h.mapSub c (List.mem_append_left _ (List.mem_append_left _ hc))
    · exact h.mapSub c (List.mem_append_left _ (List.mem_append_right _
        (mem_chansA_of_mem_removeA hc)))
    · exact h.mapSub c (List.mem_append_right _ hc)
  · intro c hc
    simp only [compChans, List.map_append, List.map_cons, List.map_nil,
      List.mem_append, List.mem_singleton] at hc
    rcases hc with hc | hc
    · exact h.compSub c hc
    · rw [hc, hcs]; exact hchu

theorem pendinginv_remove_W {used : List Chan} {s : EventLoop} {comps : List Completion}
    {ins : List Chan} (h : PendingInv used s comps ins) {k ch : Nat}
    (hl : lookupA k s.pendingSwarmEvents = some ch) (s2 : EventLoop) (comp : Completion)
    (hcs : Completion.chan comp = ch)
    (hq : s2.pendingKadQueries = s.pendingKadQueries)
    (hr : s2.pendingKadRouting = s.pendingKadRouting)
    (hw : s2.pendingSwarmEvents = removeA k s.pendingSwarmEvents) :
    PendingInv used s2 (comps ++ [comp]) ins := by
  have hchm : ch ∈ chansA s.pendingSwarmEvents :=
    List.mem_map_of_mem (·.2) (lookupA_mem hl)
  have hchu : ch ∈ used := mem_used_W h ch hchm
  refine ⟨by rw [hq]; exact h.nodupQ, by rw [hr]; exact h.nodupR,
    by rw [hw]; exact keysA_nodup_removeA h.nodupS, ?_, ?_, h.insSub, ?_⟩
  · intro c hc
    have h1 := h.once c hc
    have hcnt := count_chansA_remove h.nodupS hl c
    simp only [mapChans, compChans, List.count_append] at h1
    simp only [mapChans, hq, hr, hw, compChans, List.map_append, List.map_cons,
      List.map_nil, List.count_append, count_cons_eq, List.count_nil, hcs]
    by_cases hce : c = ch
    · rw [if_pos hce]; rw [if_pos hce] at hcnt; omega
    · rw [if_neg hce]; rw [if_neg hce] at hcnt; omega
  · intro c hc
    simp only [mapChans, hq, hr, hw, List.mem_append] at hc
    rcases hc with (hc | hc) | hc
    · exact h.mapSub c (List.mem_append_left _ (List.mem_append_left _ hc))
    · exact h.mapSub c (List.mem_append_left _ (List.mem_append_right _ hc))
    · exact h.mapSub c (List.mem_append_right _ (mem_chansA_of_mem_removeA hc))
  · intro c hc
    simp only [compChans, List.map_append, List.map_cons, List.map_nil,
      List.mem_append, List.mem_singleton] at hc
    rcases hc with hc | hc
    · exact h.compSub c hc
    · rw [hc, hcs]; exact hchu

theorem pendinginv_insert_R {used : List Chan} {s : EventLoop} {comps : List Completion}
    {ins : List Chan} (h : PendingInv used s comps ins) (k : Nat) {ch0 : Chan}
    (s2 : EventLoop)
    (hq : s2.pendingKadQueries = s.pendingKadQueries)
    (hr : s2.pendingKadRouting = insertA k ch0 s.pendingKadRouting)
    (hw : s2.pendingSwarmEvents = s.pendingSwarmEvents)
    (hch : ch0 ∉ used) :
    PendingInv (used ++ [ch0]) s2 (comps ++ dropsA k s.pendingKadRouting) (ins ++ [ch0]) := by
  have hQ0 : (chansA s.pendingKadQueries).count ch0 = 0 :=
    List.count_eq_zero.mpr (fun hm => hch (mem_used_Q h ch0 hm))
  have hR0 : (chansA s.pendingKadRouting).count ch0 = 0 :=
    List.count_eq_zero.mpr (fun hm => hch (mem_used_R h ch0 hm))
  have hW0 : (chansA s.pendingSwarmEvents).count ch0 = 0 :=
    List.count_eq_zero.mpr (fun hm => hch (mem_used_W h ch0 hm))
  have hC0 : (List.map Completion.chan comps).count ch0 = 0 :=
    List.count_eq_zero.mpr (fun hm => hch (h.compSub ch0 hm))
  have hins : chansA (insertA k ch0 s.pendingKadRouting)
      = ch0 :: chansA (removeA k s.pendingKadRouting) := rfl
  refine ⟨by rw [hq]; exact h.nodupQ,
    by rw [hr]; exact keysA_nodup_insertA h.nodupR,
    by rw [hw]; exact h.nodupS, ?_, ?_, ?_, ?_⟩
  · intro c hc
    rw [List.mem_append, List.mem_singleton] at hc
    cases hld : lookupA k s.pendingKadRouting with
    | none =>
      have hrme : removeA k s.pendingKadRouting = s.pendingKadRouting :=
        removeA_eq_of_not_mem (not_mem_keysA_of_lookupA_none hld)
      have hdr : dropsA k s.pendingKadRouting = [] := by simp [dropsA, hld]
      rcases hc with hc | rfl
      · have h1 := h.once c hc
        have hcu : c ∈ used := h.insSub c hc
        have hne : c ≠ ch0 := fun he => hch (he ▸ hcu)
        simp only [mapChans, compChans, List.count_append] at h1
        simp only [mapChans, hq, hr, hw, hins, hrme, hdr, List.append_nil, compChans,
          List.count_append, count_cons_eq]
        rw [if_neg hne]
        omega
      · simp only [mapChans, hq, hr, hw, hins, hrme, hdr, List.append_nil, compChans,
          List.count_append, count_cons_eq]
        rw [if_pos trivial]
        omega
    | some old =>
      have hdr : dropsA k s.pendingKadRouting = [Completion.dropped old] := by
        simp [dropsA, hld]
      have hold : old ∈ chansA s.pendingKadRouting :=
        List.mem_map_of_mem (·.2) (lookupA_mem hld)
      have holdu : old ∈ used := mem_used_R h old hold
      rcases hc with hc | rfl
      · have h1 := h.once c hc
        have hcu : c ∈ used := h.insSub c hc
        have hne : c ≠ ch0 := fun he => hch (he ▸ hcu)
        have hcnt := count_chansA_remove h.nodupR hld c
        simp only [mapChans, compChans, List.count_append] at h1
        simp only [mapChans, hq, hr, hw, hins, hdr, compChans, List.map_append,
          List.map_cons, List.map_nil, Completion.chan, List.count_append,
          count_cons_eq, List.count_nil]
        rw [if_neg hne]
        by_cases hco : c = old
        · rw [if_pos hco]; rw [if_pos hco] at hcnt; omega
        · rw [if_neg hco]; rw [if_neg hco] at hcnt; omega
      · have hne2 : c ≠ old := fun he => hch (he ▸ holdu)
        have hrm0 : (chansA (removeA k s.pendingKadRouting)).count c = 0 := by
          have := count_chansA_remove_le k s.pendingKadRouting c
          omega
        simp only [mapChans, hq, hr, hw, hins, hdr, compChans, List.map_append,
          List.map_cons, List.map_nil, Completion.chan, List.count_append,
          count_cons_eq, List.count_nil]
        rw [if_pos trivial, if_neg hne2]
        omega
  · intro c hc
    simp only [mapChans, hq, hr, hw, hins, List.mem_append, List.mem_cons] at hc
    rcases hc with (hc | (rfl | hc)) | hc
    · exact List.mem_append_left _ (h.mapSub c (List.mem_append_left _
        (List.mem_append_left _ hc)))
    · exact List.mem_append_right _ (List.mem_singleton_self _)
    · exact List.mem_append_left _ (h.mapSub c (List.mem_append_left _
        (List.mem_append_right _ (mem_chansA_of_mem_removeA hc))))
    · exact List.mem_append_left _ (h.mapSub c (List.mem_append_right _ hc))
  · intro c hc
    rw [List.mem_append] at hc
    rcases hc with hc | hc
    · exact List.mem_append_left _ (h.insSub c hc)
    · exact List.mem_append_right _ hc
  · intro c hc
    cases hld : lookupA k s.pendingKadRouting with
    | none =>
      have hdr : dropsA k s.pendingKadRouting = [] := by simp [dropsA, hld]
      rw [hdr, List.append_nil] at hc
      exact List.mem_append_left _ (h.compSub c hc)
    | some old =>
      have hdr : dropsA k s.pendingKadRouting = [Completion.dropped old] := by
        simp [dropsA, hld]
      rw [hdr] at hc
      simp only [compChans, List.map_append, List.map_cons, List.map_nil,
        Completion.chan, List.mem_append, List.mem_singleton] at hc
      rcases hc with hc | hc
      · exact List.mem_append_left _ (h.compSub c hc)
      · rw [hc]
        exact List.mem_append_left _ (mem_used_R h old
          (List.mem_map_of_mem (·.2) (lookupA_mem hld)))

theorem pendinginv_insert_W {used : List Chan} {s : EventLoop} {comps : List Completion}
    {ins : List Chan} (h : PendingInv used s comps ins) (k : Nat) {ch0 : Chan}
    (s2 : EventLoop)
    (hq : s2.pendingKadQueries = s.pendingKadQueries)
    (hr : s2.pendingKadRouting = s.pendingKadRouting)
    (hw : s2.pendingSwarmEvents = insertA k ch0 s.pendingSwarmEvents)
    (hch : ch0 ∉ used) :
    PendingInv (used ++ [ch0]) s2 (comps ++ dropsA k s.pendingSwarmEvents) (ins ++ [ch0]) := by
  have hQ0 : (chansA s.pendingKadQueries).count ch0 = 0 :=
    List.count_eq_zero.mpr (fun hm => hch (mem_used_Q h ch0 hm))
  have hR0 : (chansA s.pendingKadRouting).count ch0 = 0 :=
    List.count_eq_zero.mpr (fun hm => hch (mem_used_R h ch0 hm))
  have hW0 : (chansA s.pendingSwarmEvents).count ch0 = 0 :=
    List.count_eq_zero.mpr (fun hm => hch (mem_used_W h ch0 hm))
  have hC0 : (List.map Completion.chan comps).count ch0 = 0 :=
    List.count_eq_zero.mpr (fun hm => hch (h.compSub ch0 hm))
  have hins : chansA (insertA k ch0 s.pendingSwarmEvents)
      = ch0 :: chansA (removeA k s.pendingSwarmEvents) := rfl
  refine ⟨by rw [hq]; exact h.nodupQ, by rw [hr]; exact h.nodupR,
    by rw [hw]; exact keysA_nodup_insertA h.nodupS, ?_, ?_, ?_, ?_⟩
  · intro c hc
    rw [List.mem_append, List.mem_singleton] at hc
    cases hld : lookupA k s.pendingSwarmEvents with
    | none =>
      have hrme : removeA k s.pendingSwarmEvents = s.pendingSwarmEvents :=
        removeA_eq_of_not_mem (not_mem_keysA_of_lookupA_none hld)
      have hdr : dropsA k s.pendingSwarmEvents = [] := by simp [dropsA, hld]
      rcases hc with hc | rfl
      · have h1 := h.once c hc
        have hcu : c ∈ used := h.insSub c hc
        have hne : c ≠ ch0 := fun he => hch (he ▸ hcu)
        simp only [mapChans, compChans, List.count_append] at h1
        simp only [mapChans, hq, hr, hw, hins, hrme, hdr, List.append_nil, compChans,
          List.count_append, count_cons_eq]
        rw [if_neg hne]
        omega
      · simp only [mapChans, hq, hr, hw, hins, hrme, hdr, List.append_nil, compChans,
          List.count_append, count_cons_eq]
        rw [if_pos trivial]
        omega
    | some old =>
      have hdr : dropsA k s.pendingSwarmEvents = [Completion.dropped old] := by
        simp [dropsA, hld]
      have hold : old ∈ chansA s.pendingSwarmEvents :=
        List.mem_map_of_mem (·.2) (lookupA_mem hld)
      have holdu : old ∈ used := mem_used_W h old hold
      rcases hc with hc | rfl
      · have h1 := h.once c hc
        have hcu : c ∈ used := h.insSub c hc
        have hne : c ≠ ch0 := fun he => hch (he ▸ hcu)
        have hcnt := count_chansA_remove h.nodupS hld c
        simp only [mapChans, compChans, List.count_append] at h1
        simp only [mapChans, hq, hr, hw, hins, hdr, compChans, List.map_append,
          List.map_cons, List.map_nil, Completion.chan, List.count_append,
          count_cons_eq, List.count_nil]
        rw [if_neg hne]
        by_cases hco : c = old
        · rw [if_pos hco]; rw [if_pos hco] at hcnt; omega
        · rw [if_neg hco]; rw [if_neg hco] at hcnt; omega
      · have hne2 : c ≠ old := fun he => hch (he ▸ holdu)
        have hrm0 : (chansA (removeA k s.pendingSwarmEvents)).count c = 0 := by
          have := count_chansA_remove_le k s.pendingSwarmEvents c
          omega
        simp only [mapChans, hq, hr, hw, hins, hdr, compChans, List.map_append,
          List.map_cons, List.map_nil, Completion.chan, List.count_append,
          count_cons_eq, List.count_nil]
        rw [if_pos trivial, if_neg hne2]
        omega
  · intro c hc
    simp only [mapChans, hq, hr, hw, hins, List.mem_append, List.mem_cons] at hc
    rcases hc with (hc | hc) | rfl | hc
    · exact List.mem_append_left _ (h.mapSub c (List.mem_append_left _
        (List.mem_append_left _ hc)))
    · exact List.mem_append_left _ (h.mapSub c (List.mem_append_left _
        (List.mem_append_right _ hc)))
    · exact List.mem_append_right _ (List.mem_singleton_self _)
    · exact List.mem_append_left _ (h.mapSub c (List.mem_append_right _
        (mem_chansA_of_mem_removeA hc)))
  · intro c hc
    rw [List.mem_append] at hc
    rcases hc with hc | hc
    · exact List.mem_append_left _ (h.insSub c hc)
    · exact List.mem_append_right _ hc
  · intro c hc
    cases hld : lookupA k s.pendingSwarmEvents with
    | none =>
      have hdr : dropsA k s.pendingSwarmEvents = [] := by simp [dropsA, hld]
      rw [hdr, List.append_nil] at hc
      exact List.mem_append_left _ (h.compSub c hc)
    | some old =>
      have hdr : dropsA k s.pendingSwarmEvents = [Completion.dropped old] := by
        simp [dropsA, hld]
      rw [hdr] at hc
      simp only [compChans, List.map_append, List.map_cons, List.map_nil,
        Completion.chan, List.mem_append, List.mem_singleton] at hc
      rcases hc with hc | hc
      · exact List.mem_append_left _ (h.compSub c hc)
      · rw [hc]
        exact List.mem_append_left _ (mem_used_W h old
          (List.mem_map_of_mem (·.2) (lookupA_mem hld)))

theorem step_preserves_inv {used : List Chan} {s : EventLoop} {comps : List Completion}
    {ins : List Chan} (t : Step) (h : PendingInv used s comps ins)
    (hfresh : ∀ ch ∈ stepChans t, ch ∉ used) :
    PendingInv (used ++ stepChans t) (stepEL s t).1 (comps ++ (stepEL s t).2.1)
      (ins ++ (stepEL s t).2.2) := by
  cases t with
  | tick =>
    have hmain := pendinginv_same_maps h (handle_periodic_bootstraps s)
      (by rw [handle_periodic_bootstraps]; split <;> rfl)
      (by rw [handle_periodic_bootstraps]; split <;> rfl)
      (by rw [handle_periodic_bootstraps]; split <;> rfl)
    simpa [stepEL, stepChans] using hmain
  | ev e =>
    cases e with
    | routingUpdated peer =>
      cases hl : lookupA peer s.pendingKadRouting with
      | none => simpa [stepEL, handle_event, stepChans, hl] using h
      | some ch =>
        have hmain := pendinginv_remove_R h hl
          { s with pendingKadRouting := removeA peer s.pendingKadRouting }
          (Completion.sendOk ch) rfl rfl rfl rfl
        simpa [stepEL, handle_event, stepChans, hl] using hmain
    | bootstrapOk id peer n =>
      by_cases hn : n = 0
      · subst hn
        cases hl : lookupA id s.pendingKadQueries with
        | none => simpa [stepEL, handle_event, stepChans, hl] using h
        | some ch =>
          have hmain := pendinginv_remove_Q h hl
            { s with pendingKadQueries := removeA id s.pendingKadQueries,
                     isStartupDone := true }
            (Completion.sendOk ch) rfl rfl rfl rfl
          simpa [stepEL, handle_event, stepChans, hl] using hmain
      · simpa [stepEL, handle_event, stepChans, hn] using h
    | bootstrapErr id =>
      cases hl : lookupA id s.pendingKadQueries with
      | none => simpa [stepEL, handle_event, stepChans, hl] using h
      | some ch =>
        have hmain := pendinginv_remove_Q h hl
          { s with pendingKadQueries := removeA id s.pendingKadQueries }
          (Completion.sendErr ch) rfl rfl rfl rfl
        simpa [stepEL, handle_event, stepChans, hl] using hmain
    | otherQueryProgressed id =>
      simpa [stepEL, handle_event, stepChans] using h
    | identifyReceived p v addrs =>
      have hmain := pendinginv_same_maps h
        ((stepEL s (Step.ev (Event.identifyReceived p v addrs))).1) rfl rfl rfl
      simpa [stepEL, handle_event, stepChans] using hmain
    | autoNatEvent =>
      simpa [stepEL, handle_event, stepChans] using h
    | connectionClosed p cause =>
      rcases cause with - | ce
      · simpa [stepEL, handle_event, stepChans] using h
      · cases ce with
        | ioError =>
          have hmain := pendinginv_same_maps h
            { s with kademlia := kadRemovePeer s.kademlia p } rfl rfl rfl
          simpa [stepEL, handle_event, stepChans] using hmain
        | handlerError =>
          have hmain := pendinginv_same_maps h
            { s with kademlia := kadRemovePeer s.kademlia p } rfl rfl rfl
          simpa [stepEL, handle_event, stepChans] using hmain
        | keepAliveTimeout =>
          simpa [stepEL, handle_event, stepChans] using h
    | outgoingConnectionError po =>
      rcases po with - | p
      · simpa [stepEL, handle_event, stepChans] using h
      · have hmain := pendinginv_same_maps h
          { s with kademlia := kadRemovePeer s.kademlia p } rfl rfl rfl
        simpa [stepEL, handle_event, stepChans] using hmain
    | connectionEstablished isListener =>
      cases isListener with
      | false => simpa [stepEL, handle_event, stepChans] using h
      | true =>
        cases hl : lookupA s.localPeerId s.pendingSwarmEvents with
        | none => simpa [stepEL, handle_event, stepChans, hl] using h
        | some ch =>
          have hmain := pendinginv_remove_W h hl
            { s with pendingSwarmEvents := removeA s.localPeerId s.pendingSwarmEvents }
            (Completion.sendUnit ch) rfl rfl rfl rfl
          simpa [stepEL, handle_event, stepChans, hl] using hmain
    | newListenAddr =>
      simpa [stepEL, handle_event, stepChans] using h
  | cmd c =>
    cases c with
    | startListening ch ok =>
      have hch : ch ∉ used := hfresh ch (by simp [stepChans, Command.chan])
      have hcc : Completion.chan (if ok then Completion.sendOk ch else Completion.sendErr ch)
          = ch := by cases ok <;> rfl
      have hmain := pendinginv_send_now h s
        (if ok then Completion.sendOk ch else Completion.sendErr ch) rfl rfl rfl
        (by rw [hcc]; exact hch)
      rw [hcc] at hmain
      simpa [stepEL, handle_command, stepChans, Command.chan] using hmain
    | bootstrap ch =>
      have hch : ch ∉ used := hfresh ch (by simp [stepChans, Command.chan])
      rcases hkb : kadBootstrap s.kademlia with ⟨oq, k2⟩
      cases oq with
      | none =>
        have hmain := pendinginv_send_now h { s with kademlia := k2 }
          (Completion.sendErr ch) rfl rfl rfl hch
        simpa [stepEL, handle_command, hkb, stepChans, Command.chan,
          Completion.chan] using hmain
      | some qid =>
        have hmain := pendinginv_insert_Q h qid
          { s with kademlia := k2,
                   pendingKadQueries := insertA qid ch s.pendingKadQueries }
          rfl rfl rfl hch
        simpa [stepEL, handle_command, hkb, stepChans, Command.chan] using hmain
    | waitIncomingConnection ch =>
      have hch : ch ∉ used := hfresh ch (by simp [stepChans, Command.chan])
      have hmain := pendinginv_insert_W h s.localPeerId
        { s with pendingSwarmEvents := insertA s.localPeerId ch s.pendingSwarmEvents }
        rfl rfl rfl hch
      simpa [stepEL, handle_command, stepChans, Command.chan] using hmain
    | countDHTPeers ch =>
      have hch : ch ∉ used := hfresh ch (by simp [stepChans, Command.chan])
      have hmain := pendinginv_send_now h s (Completion.sendVal ch) rfl rfl rfl hch
      simpa [stepEL, handle_command, stepChans, Command.chan, Completion.chan] using hmain
    | getMultiaddress ch =>
      have hch : ch ∉ used := hfresh ch (by simp [stepChans, Command.chan])
      have hmain := pendinginv_send_now h s (Completion.sendVal ch) rfl rfl rfl hch
      simpa [stepEL, handle_command, stepChans, Command.chan, Completion.chan] using hmain
    | getDHTEntries ch =>
      have hch : ch ∉ used := hfresh ch (by simp [stepChans, Command.chan])
      have hmain := pendinginv_send_now h s (Completion.sendVal ch) rfl rfl rfl hch
      simpa [stepEL, handle_command, stepChans, Command.chan, Completion.chan] using hmain
    | addAddress p a ch =>
      have hch : ch ∉ used := hfresh ch (by simp [stepChans, Command.chan])
      have hmain := pendinginv_insert_R h p
        { s with kademlia := kadAddAddress s.kademlia p a,
                 pendingKadRouting := insertA p ch s.pendingKadRouting }
        rfl rfl rfl hch
      simpa [stepEL, handle_command, stepChans, Command.chan] using hmain

theorem compChans_terminate (s : EventLoop) : compChans (terminate s) = mapChans s := by
  have hf : (Completion.chan ∘ fun e : Nat × Chan => Completion.dropped e.2)
      = fun e : Nat × Chan => e.2 := by
    funext e; rfl
  simp [terminate, mapChans, compChans, chansA, List.map_append, List.map_map, hf]

theorem run_preserves_inv : ∀ (steps : List Step) {used : List Chan} {s : EventLoop}
    {comps : List Completion} {ins : List Chan},
    PendingInv used s comps ins →
    (∀ c ∈ traceChans steps, c ∉ used) → (traceChans steps).Nodup →
    PendingInv (used ++ traceChans steps) (run s steps).1
      (comps ++ (run s steps).2.1) (ins ++ (run s steps).2.2) := by
  intro steps
  induction steps with
  | nil =>
    intro used s comps ins h _ _
    simpa [run, traceChans] using h
  | cons t ts ih =>
    intro used s comps ins h hdis hnd
    rw [traceChans] at hdis hnd
    have hfr : ∀ ch ∈ stepChans t, ch ∉ used := fun ch hch =>
      hdis ch (List.mem_append_left _ hch)
    have h1 := step_preserves_inv t h hfr
    have hsplit := List.nodup_append.mp hnd
    have hdis2 : ∀ c ∈ traceChans ts, c ∉ used ++ stepChans t := by
      intro c hc hmem
      rcases List.mem_append.mp hmem with hm | hm
      · exact hdis c (List.mem_append_right _ hc) hm
      · exact hsplit.2.2 hm hc
    have h2 := ih h1 hdis2 hsplit.2.1
    rw [traceChans]
    simp only [run]
    simp only [List.append_assoc] at h2 ⊢
    exact h2

/-- C2: over any complete engine run from a fresh engine — any
interleaving of swarm events, commands carrying pairwise-distinct fresh
one-shot response channels, and timer ticks, ending with the shutdown
that drops the engine when the command channel closes — every channel
inserted into a pending-command map (a bootstrap query channel keyed by
query id, a routing-update acknowledgement keyed by peer id, or a
wait-for-first-inbound-connection entry keyed by the node's own
identifier) is completed exactly once: by the explicit send of the
matching event, or by its sender being dropped (overwritten by a later
insertion for the same key, or outstanding at shutdown), which in tokio
completes the caller's await with a channel-closed error.  In
particular no channel is ever signalled twice and none is left
uncompleted. -/
theorem pending_commands_complete_once (k : Kademlia) (lp : PeerId) (steps : List Step)
    (hwf : (traceChans steps).Nodup) :
    ∀ c ∈ (run (EventLoop.new k lp) steps).2.2,
      (compChans ((run (EventLoop.new k lp) steps).2.1
        ++ terminate (run (EventLoop.new k lp) steps).1)).count c = 1 := by
  have hinv0 : PendingInv [] (EventLoop.new k lp) [] [] := by
    refine ⟨?_, ?_, ?_, ?_, ?_, ?_, ?_⟩ <;>
      simp [EventLoop.new, mapChans, compChans, chansA, keysA]
  have hrun := run_preserves_inv steps hinv0 (by simp) hwf
  simp only [List.nil_append] at hrun
  intro c hc
  have h1 := hrun.once c hc
  have ht := compChans_terminate (run (EventLoop.new k lp) steps).1
  simp only [compChans] at ht h1 ⊢
  simp only [List.map_append, List.count_append]
  rw [ht]
  omega

/-- Sample trace for C2: two overlapping WaitIncomingConnection commands
(the second insertion overwrites and drops the first) and a Bootstrap
command on an empty table (synchronous error, no insertion); the engine
then shuts down with channel 1 still pending. -/
def stepsC2 : List Step :=
  [Step.cmd (Command.waitIncomingConnection 0),
   Step.cmd (Command.waitIncomingConnection 1),
   Step.cmd (Command.bootstrap 2)]

/-- Witness for C2: the sample trace is wellformed, channel 0 is
recorded as inserted, and it is completed exactly once over the run
followed by shutdown. -/
theorem pending_commands_complete_once_witness :
    (traceChans stepsC2).Nodup ∧
    0 ∈ (run (EventLoop.new ⟨[], 0⟩ 7) stepsC2).2.2 ∧
    (compChans ((run (EventLoop.new ⟨[], 0⟩ 7) stepsC2).2.1
      ++ terminate (run (EventLoop.new ⟨[], 0⟩ 7) stepsC2).1)).count 0 = 1 :=
  ⟨by decide, by decide,
   pending_commands_complete_once ⟨[], 0⟩ 7 stepsC2 (by decide) 0 (by decide)⟩
